import Mathlib

/-!
Verification of the typeahead repository: a suggestion query endpoint
(`app/routes/api-suggestions.tsx`) that filters a fixed fruit list by
case-insensitive substring, and a typeahead input widget
(`app/components/type-ahead.tsx`) with a 300ms debounce and keyboard
navigation.  The definitions below are a shallow embedding of that code.
Strings are manipulated through their character lists so that every
operation computes by kernel reduction.
-/

/-- A suggestion item: `id` is a lowercase identifier, `value` the display
text (interface `Suggestion` in `api-suggestions.tsx`). -/
structure Suggestion where
  id : String
  value : String
deriving Repr, DecidableEq

/-- The fixed in-memory source list (`fruits` in `api-suggestions.tsx`). -/
def fruits : List Suggestion :=
  [ ⟨"apple", "Apple"⟩,
    ⟨"banana", "Banana"⟩,
    ⟨"blackberry", "Blackberry"⟩,
    ⟨"blueberry", "Blueberry"⟩,
    ⟨"dragonfruit", "Dragonfruit"⟩,
    ⟨"grapefruit", "Grapefruit"⟩,
    ⟨"kiwi", "Kiwi"⟩,
    ⟨"lemon", "Lemon"⟩,
    ⟨"lime", "Lime"⟩,
    ⟨"lychee", "Lychee"⟩,
    ⟨"mango", "Mango"⟩,
    ⟨"nectarine", "Nectarine"⟩,
    ⟨"orange", "Orange"⟩,
    ⟨"papaya", "Papaya"⟩,
    ⟨"passionfruit", "Passionfruit"⟩,
    ⟨"peach", "Peach"⟩,
    ⟨"pineapple", "Pineapple"⟩,
    ⟨"raspberry", "Raspberry"⟩,
    ⟨"strawberry", "Strawberry"⟩,
    ⟨"watermelon", "Watermelon"⟩ ]

/-- JavaScript `String.prototype.trim` on a character list: drop leading and
trailing whitespace. -/
def jsTrim (l : List Char) : List Char :=
  ((l.dropWhile Char.isWhitespace).reverse.dropWhile Char.isWhitespace).reverse

/-- JavaScript `String.prototype.toLowerCase` on a character list. -/
def jsLower (l : List Char) : List Char :=
  l.map Char.toLower

/-- JavaScript `s.trim().toLowerCase()` applied to a string, as a character
list. -/
def trimLower (s : String) : List Char :=
  jsLower (jsTrim s.data)

/-- JavaScript `hay.includes(needle)`: `needle` occurs as a contiguous
substring of `hay`. -/
def jsIncludes (hay needle : List Char) : Bool :=
  match hay with
  | [] => needle.isEmpty
  | _ :: t => needle.isPrefixOf hay || jsIncludes t needle

/-- The route `loader` of `api-suggestions.tsx`.  `q` is the value of the
`q` search parameter (`none` when absent).  The result is the HTTP status
together with the JSON array body.  The loader computes
`q?.trim().toLowerCase() || ""`; an empty query returns `(200, [])`
immediately, otherwise the fruits whose lower-cased `value` contains the
query are returned, capped at 10. -/
def loader (q : Option String) : Nat × List Suggestion :=
  let query := (q.map trimLower).getD []
  if query = [] then (200, [])
  else (200, (fruits.filter (fun fruit => jsIncludes (jsLower fruit.value.data) query)).take 10)

/-- C1: for a query whose trimmed, lower-cased form is non-empty, the loader
returns exactly the ordered subsequence of the source list whose `value`,
lower-cased, contains that form as a substring, in source order, truncated
to the first 10 matches; in particular the body is a sublist of `fruits`,
every returned value matches, and the length is at most 10. -/
theorem loader_filter_spec (q : String) (h : trimLower q ≠ []) :
    (loader (some q)).2 =
      (fruits.filter (fun fruit => jsIncludes (jsLower fruit.value.data) (trimLower q))).take 10
    ∧ (loader (some q)).2.Sublist fruits
    ∧ (loader (some q)).2.length ≤ 10
    ∧ ∀ s ∈ (loader (some q)).2, jsIncludes (jsLower s.value.data) (trimLower q) = true := by
  have heq : (loader (some q)).2 =
      (fruits.filter (fun fruit => jsIncludes (jsLower fruit.value.data) (trimLower q))).take 10 := by
    simp [loader, h]
  refine ⟨heq, ?_, ?_, ?_⟩
  · rw [heq]
    exact (List.take_sublist _ _).trans (List.filter_sublist _)
  · rw [heq]
    exact List.length_take_le 10 _
  · intro s hs
    rw [heq] at hs
    exact (List.mem_filter.mp (List.mem_of_mem_take hs)).2

/-- Witness for C1 at the concrete query `"ap"`. -/
theorem loader_filter_spec_witness :
    (loader (some "ap")).2 =
      (fruits.filter (fun fruit => jsIncludes (jsLower fruit.value.data) (trimLower "ap"))).take 10
    ∧ (loader (some "ap")).2.Sublist fruits
    ∧ (loader (some "ap")).2.length ≤ 10
    ∧ ∀ s ∈ (loader (some "ap")).2, jsIncludes (jsLower s.value.data) (trimLower "ap") = true :=
  loader_filter_spec "ap" (by decide)

/-- C2: a missing, empty or whitespace-only `q` parameter (trimmed,
lower-cased form empty) makes the loader return status 200 with the empty
sequence — degradation to empty-query behavior, never an error. -/
theorem loader_empty_query :
    loader none = (200, [])
    ∧ ∀ q : String, trimLower q = [] → loader (some q) = (200, []) := by
  constructor
  · rfl
  · intro q hq
    simp [loader, hq]

/-- Witness for C2 at the whitespace-only query `"   "` and the absent one. -/
theorem loader_empty_query_witness :
    loader none = (200, []) ∧ loader (some "   ") = (200, []) :=
  ⟨loader_empty_query.1, loader_empty_query.2 "   " (by decide)⟩

/-- Keys handled by the widget's `handleKeyDown` switch; `other` stands for
any key outside the four handled cases. -/
inductive Key where
  | arrowDown
  | arrowUp
  | enter
  | escape
  | other
deriving Repr, DecidableEq

/-- The widget-local state of `TypeAhead`: the controlled input text
(`query`), the last fetcher payload (`data`, `none` when `fetcher.data` is
undefined), the highlight (`selectedIndex`, `-1` meaning none, as in the
source), and the focus flag (`isFocused`). -/
structure TAState where
  query : String
  data : Option (List Suggestion)
  selectedIndex : Int
  isFocused : Bool
deriving Repr, DecidableEq

/-- The observable outcome of one `handleKeyDown` call: the new widget
state, the suggestion passed to the `onSelect` callback (if any), whether
`inputRef.current?.blur()` was called, and whether
`event.preventDefault()` was called. -/
structure KeyResult where
  state : TAState
  emitted : Option Suggestion
  blurred : Bool
  defaultPrevented : Bool
deriving Repr, DecidableEq

/-- The updater passed to `setSelectedIndex` for ArrowDown:
`prev < fetcher.data.length - 1 ? prev + 1 : prev`. -/
def arrowDownIndex (len : Nat) (prev : Int) : Int :=
  if prev < (len : Int) - 1 then prev + 1 else prev

/-- The updater passed to `setSelectedIndex` for ArrowUp:
`prev > 0 ? prev - 1 : prev`. -/
def arrowUpIndex (prev : Int) : Int :=
  if prev > 0 then prev - 1 else prev

/-- `handleSelect` of `type-ahead.tsx`: sets the query text to the selected
suggestion's `value`, closes the dropdown (`isFocused := false`), resets
the highlight, and emits the suggestion to the `onSelect` callback. -/
def handleSelect (st : TAState) (s : Suggestion) : TAState × Option Suggestion :=
  ({ st with query := s.value, isFocused := false, selectedIndex := -1 }, some s)

/-- The trimmed query is empty, i.e. JavaScript `!query.trim()`. -/
def trimEmpty (s : String) : Prop :=
  jsTrim s.data = []

instance (s : String) : Decidable (trimEmpty s) := by
  unfold trimEmpty
  infer_instance

/-- `handleKeyDown` of `type-ahead.tsx`.  The guard
`!query.trim() || !fetcher.data?.length` makes every key a no-op when the
trimmed query is empty or there are no suggestions.  The Enter case indexes
`fetcher.data[selectedIndex]` (or `[0]`); an out-of-range index would be a
JavaScript `TypeError` inside `handleSelect`, modeled as `none`. -/
def handleKeyDown (st : TAState) (k : Key) : Option KeyResult :=
  let l := st.data.getD []
  if trimEmpty st.query ∨ l = [] then some ⟨st, none, false, false⟩
  else
    match k with
    | .arrowDown =>
        some ⟨{ st with selectedIndex := arrowDownIndex l.length st.selectedIndex },
              none, false, true⟩
    | .arrowUp =>
        some ⟨{ st with selectedIndex := arrowUpIndex st.selectedIndex }, none, false, true⟩
    | .enter =>
        if 0 ≤ st.selectedIndex then
          (l.get? st.selectedIndex.toNat).map
            (fun s => ⟨(handleSelect st s).1, (handleSelect st s).2, true, true⟩)
        else if 0 < l.length then
          (l.get? 0).map
            (fun s => ⟨(handleSelect st s).1, (handleSelect st s).2, true, true⟩)
        else
          some ⟨st, none, true, true⟩
    | .escape =>
        some ⟨{ st with isFocused := false, selectedIndex := -1 }, none, true, true⟩
    | .other => some ⟨st, none, false, false⟩

/-- A pointer click on dropdown entry `i` (`onClick={() => handleSelect(suggestion)}`).
The entry exists only while the dropdown is rendered, i.e. the input is
focused, the trimmed query is non-empty and the suggestion list is
non-empty; otherwise (`none`) no click can happen. -/
def clickOn (st : TAState) (i : Nat) : Option (TAState × Option Suggestion) :=
  match st.data with
  | some l =>
      if st.isFocused ∧ ¬ trimEmpty st.query ∧ l ≠ [] then
        (l.get? i).map (fun s => handleSelect st s)
      else none
  | none => none

/-- External events driving one widget instance.  `setQuery` is an input
`onChange`; `dataArrives` is a fetcher response replacing `fetcher.data`;
`focus` / `blurTimeout` are the focus handler and the delayed
`setIsFocused(false)` from `onBlur`; `key` is a keydown; `click` is a
pointer click on dropdown entry `i`. -/
inductive Event where
  | setQuery (s : String)
  | dataArrives (l : List Suggestion)
  | focus
  | blurTimeout
  | key (k : Key)
  | click (i : Nat)
deriving Repr, DecidableEq

/-- One settled transition of the widget: the event is applied together
with the effects React runs afterwards — on a query change with empty
trimmed text the debounce effect clears `fetcher.data`, and whenever
`fetcher.data` changes identity the reset effect sets `selectedIndex` to
`-1`.  `none` models a runtime `TypeError` (Enter with an out-of-range
highlight). -/
def step (st : TAState) (e : Event) : Option TAState :=
  match e with
  | .setQuery s =>
      if trimEmpty s then
        match st.data with
        | none => some { st with query := s }
        | some _ => some { st with query := s, data := none, selectedIndex := -1 }
      else some { st with query := s }
  | .dataArrives l => some { st with data := some l, selectedIndex := -1 }
  | .focus => some { st with isFocused := true }
  | .blurTimeout => some { st with isFocused := false }
  | .key k => (handleKeyDown st k).map KeyResult.state
  | .click i =>
      match clickOn st i with
      | some (st', _) => some st'
      | none => some st

/-- The initial widget state: empty query, no fetcher data, highlight
`-1`, unfocused (the `useState` initializers). -/
def initState : TAState :=
  ⟨"", none, -1, false⟩

/-- States reachable from the initial state by settled transitions. -/
inductive Reachable : TAState → Prop where
  | init : Reachable initState
  | next {st st' : TAState} {e : Event} :
      Reachable st → step st e = some st' → Reachable st'

/-- The highlight invariant: `selectedIndex` is at least `-1`, and when it
is set (`≥ 0`) it is a valid index into the current suggestion list. -/
def highlightInv (st : TAState) : Prop :=
  -1 ≤ st.selectedIndex
  ∧ (0 ≤ st.selectedIndex → ∃ l, st.data = some l ∧ st.selectedIndex.toNat < l.length)

/-- Fold a list of key events through `handleKeyDown`, stopping at a
runtime error. -/
def afterKeys : TAState → List Key → Option TAState
  | st, [] => some st
  | st, k :: ks =>
      match handleKeyDown st k with
      | some r => afterKeys r.state ks
      | none => none

/-- The debounce effect over a keystroke history.  Each list entry is a
query change at an absolute time (milliseconds, strictly increasing).  The
effect cleanup cancels the pending timer on every change; a change with
non-empty trimmed text schedules a request for 300ms later, which is
issued exactly when no further change happens within those 300ms (the last
change's timer always eventually fires).  The result lists the issued
request texts in order. -/
def issuedRequests : List (Nat × String) → List String
  | [] => []
  | [(_, s)] => if trimEmpty s then [] else [s]
  | (t, s) :: next :: rest =>
      (if trimEmpty s ∨ next.1 < t + 300 then [] else [s]) ++ issuedRequests (next :: rest)

/-- C10: when the trimmed query is empty or there are no suggestions
(absent or empty list), every key is a no-op: the state is unchanged, no
suggestion is emitted, no blur happens, and the default browser behavior
is not prevented. -/
theorem keydown_guard_noop (st : TAState) (k : Key)
    (h : trimEmpty st.query ∨ st.data = none ∨ st.data = some []) :
    handleKeyDown st k = some ⟨st, none, false, false⟩ := by
  unfold handleKeyDown
  rcases h with h | h | h <;> simp [h]

/-- Witness for C10: Enter with an empty query changes nothing and emits
nothing. -/
theorem keydown_guard_noop_witness :
    handleKeyDown ⟨"", some fruits, 0, true⟩ Key.enter =
      some ⟨⟨"", some fruits, 0, true⟩, none, false, false⟩ :=
  keydown_guard_noop ⟨"", some fruits, 0, true⟩ Key.enter (Or.inl (by decide))

/-- C9: Escape with a non-empty trimmed query and non-empty results closes
the dropdown (`isFocused := false`), resets the highlight to `-1`, calls
blur, and leaves the query text (and the stored results) unchanged. -/
theorem escape_closes (st : TAState) (l : List Suggestion)
    (hd : st.data = some l) (hl : l ≠ []) (hq : ¬ trimEmpty st.query) :
    handleKeyDown st Key.escape =
      some ⟨⟨st.query, st.data, -1, false⟩, none, true, true⟩ := by
  unfold handleKeyDown
  simp [hd, hq, hl]

/-- Witness for C9 at a concrete focused state with query `"ap"`. -/
theorem escape_closes_witness :
    handleKeyDown ⟨"ap", some fruits, 2, true⟩ Key.escape =
      some ⟨⟨"ap", some fruits, -1, false⟩, none, true, true⟩ :=
  escape_closes ⟨"ap", some fruits, 2, true⟩ fruits rfl (by decide) (by decide)

/-- C6: with a non-empty suggestion list of length `n`, ArrowDown moves the
highlight forward by one when below `n - 1` and never past `n - 1`
(clamped, no wraparound), and ArrowUp moves it backward by one when above
`0` and never below the zero/none boundary (no wraparound below the
first). -/
theorem arrow_keys_clamp (st : TAState) (l : List Suggestion)
    (hd : st.data = some l) (hl : l ≠ []) (hq : ¬ trimEmpty st.query) :
    handleKeyDown st Key.arrowDown =
      some ⟨{ st with selectedIndex := arrowDownIndex l.length st.selectedIndex },
            none, false, true⟩
    ∧ handleKeyDown st Key.arrowUp =
      some ⟨{ st with selectedIndex := arrowUpIndex st.selectedIndex }, none, false, true⟩
    ∧ (st.selectedIndex < (l.length : Int) - 1 →
        arrowDownIndex l.length st.selectedIndex = st.selectedIndex + 1)
    ∧ st.selectedIndex ≤ arrowDownIndex l.length st.selectedIndex
    ∧ arrowDownIndex l.length st.selectedIndex ≤ max st.selectedIndex ((l.length : Int) - 1)
    ∧ (0 < st.selectedIndex →
        arrowUpIndex st.selectedIndex = st.selectedIndex - 1)
    ∧ arrowUpIndex st.selectedIndex ≤ st.selectedIndex
    ∧ min st.selectedIndex 0 ≤ arrowUpIndex st.selectedIndex := by
  refine ⟨?_, ?_, ?_, ?_, ?_, ?_, ?_, ?_⟩
  · unfold handleKeyDown
    simp [hd, hq, hl]
  · unfold handleKeyDown
    simp [hd, hq, hl]
  · intro h
    simp [arrowDownIndex, h]
  · unfold arrowDownIndex
    split <;> omega
  · unfold arrowDownIndex
    split
    · exact le_max_of_le_right (by omega)
    · exact le_max_left _ _
  · intro h
    simp [arrowUpIndex, h]
  · unfold arrowUpIndex
    split <;> omega
  · unfold arrowUpIndex
    split
    · exact le_trans (min_le_right _ _) (by omega)
    · exact min_le_left _ _

/-- Witness for C6 at a concrete state with 20 results and highlight 5. -/
theorem arrow_keys_clamp_witness :
    handleKeyDown ⟨"ap", some fruits, 5, true⟩ Key.arrowDown =
      some ⟨{ (⟨"ap", some fruits, 5, true⟩ : TAState) with
                selectedIndex := arrowDownIndex fruits.length 5 },
            none, false, true⟩
    ∧ handleKeyDown ⟨"ap", some fruits, 5, true⟩ Key.arrowUp =
      some ⟨{ (⟨"ap", some fruits, 5, true⟩ : TAState) with selectedIndex := arrowUpIndex 5 },
            none, false, true⟩
    ∧ ((5 : Int) < (fruits.length : Int) - 1 → arrowDownIndex fruits.length 5 = 5 + 1)
    ∧ (5 : Int) ≤ arrowDownIndex fruits.length 5
    ∧ arrowDownIndex fruits.length 5 ≤ max 5 ((fruits.length : Int) - 1)
    ∧ ((0 : Int) < 5 → arrowUpIndex 5 = 5 - 1)
    ∧ arrowUpIndex 5 ≤ (5 : Int)
    ∧ min (5 : Int) 0 ≤ arrowUpIndex 5 :=
  arrow_keys_clamp ⟨"ap", some fruits, 5, true⟩ fruits rfl (by decide) (by decide)

/-- C4: Enter with a non-empty query and stored results selects the entry
at `selectedIndex` when set (`≥ 0`), else the first entry; and selection —
by Enter or by pointer click — is the single `handleSelect` operation that
sets the query text to the selected suggestion's `value`, closes the
dropdown, resets the highlight to `-1`, and emits the full suggestion
record to the `onSelect` callback (Enter additionally blurs the input and
prevents the default behavior). -/
theorem enter_and_click_select :
    (∀ (st : TAState) (l : List Suggestion) (s : Suggestion),
       st.data = some l → ¬ trimEmpty st.query →
       ((0 ≤ st.selectedIndex ∧ l.get? st.selectedIndex.toNat = some s)
         ∨ (st.selectedIndex < 0 ∧ l.get? 0 = some s)) →
       handleKeyDown st Key.enter =
         some ⟨⟨s.value, st.data, -1, false⟩, some s, true, true⟩)
    ∧ (∀ (st : TAState) (i : Nat) (l : List Suggestion) (s : Suggestion),
       st.data = some l → st.isFocused = true → ¬ trimEmpty st.query →
       l.get? i = some s →
       clickOn st i = some (⟨s.value, st.data, -1, false⟩, some s)) := by
  constructor
  · intro st l s hd hq hcase
    have hl : l ≠ [] := by
      rcases hcase with ⟨_, hget⟩ | ⟨_, hget⟩ <;>
        (intro he; rw [he] at hget; simp at hget)
    unfold handleKeyDown
    rcases hcase with ⟨hpos, hget⟩ | ⟨hneg, hget⟩
    · simp [hd, hq, hl, hpos, handleSelect]
      rw [← List.get?_eq_getElem?]
      exact hget
    · have hnpos : ¬ (0 ≤ st.selectedIndex) := by omega
      have hlen : 0 < l.length := List.length_pos.mpr hl
      have h0 : l[0]? = some s := by
        rw [← List.get?_eq_getElem?]
        exact hget
      obtain ⟨_, h1⟩ := List.getElem?_eq_some.mp h0
      simp [hd, hq, hl, hnpos, hlen, handleSelect, h1]
  · intro st i l s hd hf hq hget
    have hl : l ≠ [] := by
      intro he; rw [he] at hget; simp at hget
    unfold clickOn
    simp [hd, hf, hq, hl, handleSelect]
    rwa [← List.get?_eq_getElem?]

/-- Witness for C4: Enter with highlight 0 selects Apple; a click on entry
1 selects Banana. -/
theorem enter_and_click_select_witness :
    handleKeyDown ⟨"ap", some fruits, 0, true⟩ Key.enter =
      some ⟨⟨(Suggestion.mk "apple" "Apple").value, some fruits, -1, false⟩,
            some ⟨"apple", "Apple"⟩, true, true⟩
    ∧ clickOn ⟨"ap", some fruits, 1, true⟩ 1 =
      some (⟨(Suggestion.mk "banana" "Banana").value, some fruits, -1, false⟩,
            some ⟨"banana", "Banana"⟩) :=
  ⟨enter_and_click_select.1 ⟨"ap", some fruits, 0, true⟩ fruits ⟨"apple", "Apple"⟩
     rfl (by decide) (Or.inl ⟨by decide, by decide⟩),
   enter_and_click_select.2 ⟨"ap", some fruits, 1, true⟩ 1 fruits ⟨"banana", "Banana"⟩
     rfl rfl (by decide) (by decide)⟩

/-- C5 counterexample: from a fresh 3-entry result list with the highlight
in its reset state (`-1`), two ArrowDown presses leave the highlight at
`1`, not at `2` as claimed. -/
theorem arrowdown_twice_cex :
    (afterKeys ⟨"ap", some (fruits.take 3), -1, true⟩
        [Key.arrowDown, Key.arrowDown]).map TAState.selectedIndex ≠ some 2
    ∧ (afterKeys ⟨"ap", some (fruits.take 3), -1, true⟩
        [Key.arrowDown, Key.arrowDown]).map TAState.selectedIndex = some 1 := by
  decide

/-- C5 amended: from a fresh 3-entry result list (highlight reset to `-1`),
two ArrowDown presses yield highlight `1` (the first press moves from none
to index `0`); a third press reaches `2`, the last valid index. -/
theorem arrowdown_twice_from_reset (q : String) (l : List Suggestion)
    (hq : ¬ trimEmpty q) (hl : l.length = 3) :
    (afterKeys ⟨q, some l, -1, true⟩
        [Key.arrowDown, Key.arrowDown]).map TAState.selectedIndex = some 1
    ∧ (afterKeys ⟨q, some l, -1, true⟩
        [Key.arrowDown, Key.arrowDown, Key.arrowDown]).map TAState.selectedIndex = some 2 := by
  have hl' : l ≠ [] := by
    intro he
    rw [he] at hl
    simp at hl
  constructor <;>
    norm_num [afterKeys, handleKeyDown, hq, hl', hl, arrowDownIndex]

/-- Witness for the amended C5 at query `"ap"` and the first three fruits. -/
theorem arrowdown_twice_from_reset_witness :
    (afterKeys ⟨"ap", some (fruits.take 3), -1, true⟩
        [Key.arrowDown, Key.arrowDown]).map TAState.selectedIndex = some 1
    ∧ (afterKeys ⟨"ap", some (fruits.take 3), -1, true⟩
        [Key.arrowDown, Key.arrowDown, Key.arrowDown]).map TAState.selectedIndex = some 2 :=
  arrowdown_twice_from_reset "ap" (fruits.take 3) (by decide) (by decide)

/-- C3: over a keystroke history in which every change follows the previous
one in under 300ms, the debounce effect issues at most one request, and any
issued request carries the text of the final keystroke (each change cancels
the previously scheduled timer before scheduling a new one). -/
theorem debounce_coalesces (ks : List (Nat × String))
    (h : List.Chain' (fun a b => b.1 < a.1 + 300) ks) :
    (issuedRequests ks).length ≤ 1
    ∧ ∀ r ∈ issuedRequests ks, (ks.getLast?).map Prod.snd = some r := by
  induction ks with
  | nil => simp [issuedRequests]
  | cons a rest ih =>
      obtain ⟨t1, s1⟩ := a
      rcases rest with _ | ⟨b, rest'⟩
      · constructor
        · unfold issuedRequests
          split <;> simp
        · intro r hr
          unfold issuedRequests at hr
          split at hr
          · simp at hr
          · simp at hr
            simp [hr]
      · obtain ⟨t2, s2⟩ := b
        have hab : t2 < t1 + 300 := (List.chain'_cons.mp h).1
        have hrest := (List.chain'_cons.mp h).2
        have heq : issuedRequests ((t1, s1) :: (t2, s2) :: rest')
            = issuedRequests ((t2, s2) :: rest') := by
          show (if trimEmpty s1 ∨ t2 < t1 + 300 then [] else [s1])
              ++ issuedRequests ((t2, s2) :: rest') = issuedRequests ((t2, s2) :: rest')
          simp [hab]
        rw [heq, List.getLast?_cons_cons]
        exact ih hrest

/-- Witness for C3: two keystrokes 100ms apart issue exactly the request
for the final text. -/
theorem debounce_coalesces_witness :
    (issuedRequests [(0, "a"), (100, "ap")]).length ≤ 1
    ∧ ∀ r ∈ issuedRequests [(0, "a"), (100, "ap")],
        (([(0, "a"), (100, "ap")] : List (Nat × String)).getLast?).map Prod.snd = some r :=
  debounce_coalesces [(0, "a"), (100, "ap")]
    (List.chain'_cons.mpr ⟨by norm_num, List.chain'_singleton _⟩)

/-- C8: when the query text becomes empty after trimming, the very same
settled transition clears the stored results (no 300ms wait), and in the
debounce model such a change within 300ms of the previous one cancels that
pending request while scheduling none of its own. -/
theorem empty_query_clears :
    (∀ (st : TAState) (s : String), trimEmpty s →
       ∃ st', step st (Event.setQuery s) = some st'
         ∧ st'.data = none ∧ st'.query = s)
    ∧ (∀ (t1 t2 : Nat) (s1 e : String) (rest : List (Nat × String)),
       trimEmpty e → t2 < t1 + 300 →
       issuedRequests ((t1, s1) :: (t2, e) :: rest) = issuedRequests rest) := by
  constructor
  · intro st s hs
    cases hd : st.data with
    | none =>
        refine ⟨{ st with query := s }, ?_, ?_, rfl⟩
        · unfold step
          simp [hs, hd]
        · exact hd
    | some l =>
        refine ⟨{ st with query := s, data := none, selectedIndex := -1 }, ?_, rfl, rfl⟩
        unfold step
        simp [hs, hd]
  · intro t1 t2 s1 e rest he hlt
    have h1 : issuedRequests ((t1, s1) :: (t2, e) :: rest)
        = issuedRequests ((t2, e) :: rest) := by
      show (if trimEmpty s1 ∨ t2 < t1 + 300 then [] else [s1])
          ++ issuedRequests ((t2, e) :: rest) = issuedRequests ((t2, e) :: rest)
      simp [hlt]
    rw [h1]
    rcases rest with _ | ⟨c, rest'⟩
    · show (if trimEmpty e then ([] : List String) else [e]) = issuedRequests []
      simp [he, issuedRequests]
    · show (if trimEmpty e ∨ c.1 < t2 + 300 then [] else [e])
          ++ issuedRequests (c :: rest') = issuedRequests (c :: rest')
      simp [he]

/-- Witness for C8: clearing to a whitespace-only query drops the stored
results, and an empty change 200ms after a keystroke suppresses its
request. -/
theorem empty_query_clears_witness :
    (∃ st', step ⟨"ap", some fruits, 0, true⟩ (Event.setQuery " ") = some st'
       ∧ st'.data = none ∧ st'.query = " ")
    ∧ issuedRequests [(0, "ap"), (200, " ")] = issuedRequests [] :=
  ⟨empty_query_clears.1 ⟨"ap", some fruits, 0, true⟩ " " (by decide),
   empty_query_clears.2 0 200 "ap" " " [] (by decide) (by norm_num)⟩

/-- ArrowDown's updater keeps the highlight within `-1 .. len - 1` when it
starts there and the list is non-empty. -/
lemma arrowDownIndex_inv (len : Nat) (idx : Int) (hlen : 0 < len)
    (h1 : -1 ≤ idx) (h2 : 0 ≤ idx → idx.toNat < len) :
    -1 ≤ arrowDownIndex len idx
    ∧ (0 ≤ arrowDownIndex len idx → (arrowDownIndex len idx).toNat < len) := by
  unfold arrowDownIndex
  rcases le_or_lt 0 idx with hc | hc
  · have := h2 hc
    split <;> constructor <;> omega
  · have : idx = -1 := by omega
    subst this
    split <;> constructor <;> omega

/-- ArrowUp's updater keeps the highlight within `-1 .. len - 1` when it
starts there. -/
lemma arrowUpIndex_inv (len : Nat) (idx : Int)
    (h1 : -1 ≤ idx) (h2 : 0 ≤ idx → idx.toNat < len) :
    -1 ≤ arrowUpIndex idx
    ∧ (0 ≤ arrowUpIndex idx → (arrowUpIndex idx).toNat < len) := by
  unfold arrowUpIndex
  rcases le_or_lt 0 idx with hc | hc
  · have := h2 hc
    split <;> constructor <;> omega
  · have : idx = -1 := by omega
    subst this
    split <;> constructor <;> omega

/-- Case analysis on `handleKeyDown`: the resulting state is the old state,
a state whose highlight was reset to `-1` with the data untouched, or an
arrow-key move over the current non-empty list. -/
lemma handleKeyDown_state (st : TAState) (k : Key) (r : KeyResult)
    (h : handleKeyDown st k = some r) :
    r.state = st
    ∨ (r.state.selectedIndex = -1 ∧ r.state.data = st.data)
    ∨ (∃ l, st.data = some l ∧ l ≠ []
        ∧ (r.state = { st with selectedIndex := arrowDownIndex l.length st.selectedIndex }
           ∨ r.state = { st with selectedIndex := arrowUpIndex st.selectedIndex })) := by
  simp only [handleKeyDown] at h
  by_cases hg : trimEmpty st.query ∨ st.data.getD [] = []
  · rw [if_pos hg] at h
    cases Option.some.inj h
    left
    rfl
  · rw [if_neg hg] at h
    push_neg at hg
    obtain ⟨hq, hl⟩ := hg
    have hd : ∃ l, st.data = some l ∧ l ≠ [] := by
      cases hdd : st.data with
      | none =>
          rw [hdd] at hl
          simp at hl
      | some l =>
          refine ⟨l, rfl, ?_⟩
          rw [hdd] at hl
          simpa using hl
    obtain ⟨l, hdl, hlne⟩ := hd
    cases k with
    | arrowDown =>
        cases Option.some.inj h
        right; right
        exact ⟨l, hdl, hlne, Or.inl (by simp [hdl])⟩
    | arrowUp =>
        cases Option.some.inj h
        right; right
        exact ⟨l, hdl, hlne, Or.inr (by simp [hdl])⟩
    | escape =>
        cases Option.some.inj h
        right; left
        exact ⟨rfl, rfl⟩
    | other =>
        cases Option.some.inj h
        left
        rfl
    | enter =>
        by_cases hpos : 0 ≤ st.selectedIndex
        · rw [if_pos hpos] at h
          rcases hget : (st.data.getD []).get? st.selectedIndex.toNat with _ | s
          · rw [hget] at h
            simp at h
          · rw [hget] at h
            simp only [Option.map_some'] at h
            cases Option.some.inj h
            right; left
            exact ⟨rfl, rfl⟩
        · rw [if_neg hpos] at h
          by_cases hlen : 0 < (st.data.getD []).length
          · rw [if_pos hlen] at h
            rcases hget : (st.data.getD []).get? 0 with _ | s
            · rw [hget] at h
              simp at h
            · rw [hget] at h
              simp only [Option.map_some'] at h
              cases Option.some.inj h
              right; left
              exact ⟨rfl, rfl⟩
          · rw [if_neg hlen] at h
            cases Option.some.inj h
            left
            rfl

/-- C7: in every reachable widget state the highlight, when set (`≥ 0`), is
a valid index into the current suggestion list (and is never below `-1`);
and every arriving response resets the highlight to `-1`. -/
theorem highlight_invariant :
    (∀ st, Reachable st → highlightInv st)
    ∧ ∀ (st : TAState) (l : List Suggestion),
        ∃ st', step st (Event.dataArrives l) = some st' ∧ st'.selectedIndex = -1 := by
  constructor
  · intro st h
    induction h with
    | init =>
        refine ⟨by norm_num [initState], fun h0 => absurd h0 (by norm_num [initState])⟩
    | next hst hstep ih =>
        rename_i st1 st2 e
        cases e with
        | setQuery s =>
            simp only [step] at hstep
            by_cases hs : trimEmpty s
            · rw [if_pos hs] at hstep
              cases hdd : st1.data with
              | none =>
                  rw [hdd] at hstep
                  cases Option.some.inj hstep
                  refine ⟨ih.1, fun h0 => ?_⟩
                  obtain ⟨l, hl, _⟩ := ih.2 h0
                  rw [hdd] at hl
                  exact Option.noConfusion hl
              | some l =>
                  rw [hdd] at hstep
                  cases Option.some.inj hstep
                  exact ⟨by norm_num, fun h0 => absurd h0 (by norm_num)⟩
            · rw [if_neg hs] at hstep
              cases Option.some.inj hstep
              exact ⟨ih.1, fun h0 => ih.2 h0⟩
        | dataArrives l =>
            simp only [step] at hstep
            cases Option.some.inj hstep
            exact ⟨by norm_num, fun h0 => absurd h0 (by norm_num)⟩
        | focus =>
            simp only [step] at hstep
            cases Option.some.inj hstep
            exact ⟨ih.1, fun h0 => ih.2 h0⟩
        | blurTimeout =>
            simp only [step] at hstep
            cases Option.some.inj hstep
            exact ⟨ih.1, fun h0 => ih.2 h0⟩
        | key k =>
            simp only [step] at hstep
            rcases hk : handleKeyDown st1 k with _ | r
            · rw [hk] at hstep
              exact absurd hstep (by simp)
            · rw [hk] at hstep
              simp only [Option.map_some'] at hstep
              cases Option.some.inj hstep
              rcases handleKeyDown_state st1 k r hk with hcase | ⟨hidx, hdata⟩ |
                ⟨l, hdl, hlne, harr⟩
              · rw [hcase]
                exact ih
              · refine ⟨by rw [hidx], fun h0 => absurd h0 (by rw [hidx]; norm_num)⟩
              · have hlen : 0 < l.length := List.length_pos.mpr hlne
                have hb : 0 ≤ st1.selectedIndex → st1.selectedIndex.toNat < l.length := by
                  intro h0
                  obtain ⟨l', hl', hlt⟩ := ih.2 h0
                  rw [hdl] at hl'
                  cases Option.some.inj hl'
                  exact hlt
                rcases harr with he | he <;> rw [he]
                · obtain ⟨p1, p2⟩ := arrowDownIndex_inv l.length st1.selectedIndex hlen ih.1 hb
                  exact ⟨p1, fun h0 => ⟨l, by simpa using hdl, p2 h0⟩⟩
                · obtain ⟨p1, p2⟩ := arrowUpIndex_inv l.length st1.selectedIndex ih.1 hb
                  exact ⟨p1, fun h0 => ⟨l, by simpa using hdl, p2 h0⟩⟩
        | click i =>
            simp only [step] at hstep
            rcases hc : clickOn st1 i with _ | p
            · rw [hc] at hstep
              cases Option.some.inj hstep
              exact ih
            · obtain ⟨stc, em⟩ := p
              rw [hc] at hstep
              cases Option.some.inj hstep
              simp only [clickOn] at hc
              rcases hdd : st1.data with _ | l
              · rw [hdd] at hc
                exact Option.noConfusion hc
              · rw [hdd] at hc
                dsimp only at hc
                by_cases hcond : st1.isFocused = true ∧ ¬ trimEmpty st1.query ∧ l ≠ []
                · rw [if_pos hcond] at hc
                  obtain ⟨s, _, heq⟩ := Option.map_eq_some'.mp hc
                  have hst' : st2 = (handleSelect st1 s).1 := by
                    have := congrArg Prod.fst heq
                    simpa using this.symm
                  rw [hst']
                  exact ⟨by norm_num [handleSelect], fun h0 =>
                    absurd h0 (by norm_num [handleSelect])⟩
                · rw [if_neg hcond] at hc
                  exact Option.noConfusion hc
  · intro st l
    exact ⟨{ st with data := some l, selectedIndex := -1 }, rfl, rfl⟩

/-- Witness for C7: the invariant at the initial state, and a concrete
response resetting the highlight. -/
theorem highlight_invariant_witness :
    highlightInv initState
    ∧ ∃ st', step ⟨"ap", some fruits, 3, true⟩ (Event.dataArrives (fruits.take 2)) = some st'
        ∧ st'.selectedIndex = -1 :=
  ⟨highlight_invariant.1 initState Reachable.init,
   highlight_invariant.2 ⟨"ap", some fruits, 3, true⟩ (fruits.take 2)⟩
